import Mathlib

/-!
Verification development for the EduNet BMS dashboard (`Cell_Ch_Dc.py`).

The file shallowly embeds the stateful core of the application:
the telemetry generator `simulate_cell_data`, the workflow phase
scheduler (Start/Pause/Stop/Emergency-Stop/Reset plus the timed
transition block), the record store with its filter/sort/limit query
and auto-log debounce, and the comparison engine's summary statistics.
Python floats are modelled as exact rationals; timestamps as natural
numbers counting seconds; Python's `round` (banker's rounding) is
modelled exactly on rationals.
-/

namespace EduNet

/-! ### Rounding (Python `round` / `np.round`: round-half-to-even) -/

/-- Round-half-to-even of a rational to an integer, matching Python's
built-in `round` and `np.round` on exact values. -/
def roundHalfEven (x : ℚ) : ℤ :=
  let f : ℤ := ⌊x⌋
  let r : ℚ := x - (f : ℚ)
  if r < 1/2 then f
  else if 1/2 < r then f + 1
  else if 2 ∣ f then f else f + 1

/-- Python `round(x, 3)`. -/
def round3 (x : ℚ) : ℚ := (roundHalfEven (1000 * x) : ℚ) / 1000

/-- Python `round(x, 2)`. -/
def round2 (x : ℚ) : ℚ := (roundHalfEven (100 * x) : ℚ) / 100

/-- Python `round(x, 1)`. -/
def round1 (x : ℚ) : ℚ := (roundHalfEven (10 * x) : ℚ) / 10

/-! ### Telemetry generator: `simulate_cell_data` (source lines 42-110)

The Python function draws its random values inline from `random.uniform`
ranges.  The embedding takes the draws as an explicit `Draws` argument;
`validDraws` states exactly the ranges the source draws from, so a
quantification over valid draws is a quantification over the outputs the
source can produce. -/

/-- The random draws consumed by one call of `simulate_cell_data`. -/
structure Draws where
  base : ℚ
  cur : ℚ
  temp : ℚ
  soc : ℚ
  soh : ℚ
deriving DecidableEq

/-- Lower bound of the base-voltage draw: `3.0` in the `lfp` branch,
`3.3` in the `else` branch (source lines 44-47). -/
def baseLo (cell_type : String) : ℚ := if cell_type = "lfp" then 3 else 33/10

/-- Upper bound of the base-voltage draw: `3.6` in the `lfp` branch,
`4.2` in the `else` branch (source lines 44-47). -/
def baseHi (cell_type : String) : ℚ := if cell_type = "lfp" then 36/10 else 42/10

/-- The chemistry ceiling used both as the charging cap (line 52) and in
the Overvoltage check (line 95): `4.2 if cell_type == "nmc" else 3.6`. -/
def ceilingOf (cell_type : String) : ℚ := if cell_type = "nmc" then 42/10 else 36/10

/-- The ranges the source draws from (base voltage by chemistry branch,
current and temperature by phase branch, SoC in `[50,100]`,
SoH in `[85,100]`). -/
def validDraws (cell_type phase : String) (d : Draws) : Prop :=
  baseLo cell_type ≤ d.base ∧ d.base ≤ baseHi cell_type ∧
  (if phase = "charging" then
    1 ≤ d.cur ∧ d.cur ≤ 5 ∧ 30 ≤ d.temp ∧ d.temp ≤ 50
   else if phase = "discharging" then
    -5 ≤ d.cur ∧ d.cur ≤ -1 ∧ 28 ≤ d.temp ∧ d.temp ≤ 45
   else
    -(1/2) ≤ d.cur ∧ d.cur ≤ 1/2 ∧ 25 ≤ d.temp ∧ d.temp ≤ 35) ∧
  50 ≤ d.soc ∧ d.soc ≤ 100 ∧ 85 ≤ d.soh ∧ d.soh ≤ 100

instance (ct phase : String) (d : Draws) : Decidable (validDraws ct phase d) := by
  unfold validDraws; infer_instance

/-- Phase adjustment of the voltage (lines 50-64): charging scales by
1.1 capped at the chemistry ceiling, discharging scales by 0.9, idle is
unscaled. -/
def phaseVoltage (cell_type phase : String) (base : ℚ) : ℚ :=
  if phase = "charging" then min (base * (11/10)) (ceilingOf cell_type)
  else if phase = "discharging" then base * (9/10)
  else base

/-- Working-condition voltage multiplier (lines 67-79). -/
def derate (working_condition : String) : ℚ :=
  if working_condition = "Degraded" then 19/20
  else if working_condition = "Critical" then 17/20
  else if working_condition = "Faulty" then 7/10
  else 1

/-- Working-condition temperature increment (lines 67-79). -/
def tempAdd (working_condition : String) : ℚ :=
  if working_condition = "Degraded" then 5
  else if working_condition = "Critical" then 10
  else if working_condition = "Faulty" then 15
  else 0

/-- Working-condition SoC-change multiplier (lines 67-79; Faulty forces
`soc_change = 0`). -/
def socFactor (working_condition : String) : ℚ :=
  if working_condition = "Degraded" then 4/5
  else if working_condition = "Critical" then 1/2
  else if working_condition = "Faulty" then 0
  else 1

/-- The voltage before display rounding: phase adjustment then
working-condition derating, exactly as lines 50-79 compose. -/
def rawVoltage (cell_type working_condition phase : String) (base : ℚ) : ℚ :=
  phaseVoltage cell_type phase base * derate working_condition

/-- One generated reading (the dict returned at lines 100-110). -/
structure Reading where
  voltage : ℚ
  current : ℚ
  temperature : ℚ
  capacity : ℚ
  soc : ℚ
  soh : ℚ
  phase : String
  workingCondition : String
  alerts : List String
deriving DecidableEq

/-- Shallow embedding of `simulate_cell_data` (lines 42-110). -/
def simulate_cell_data (cell_type working_condition phase : String) (d : Draws) : Reading :=
  let current0 : ℚ := round2 d.cur
  let temp0 : ℚ := round1 d.temp
  let soc_change0 : ℚ :=
    if phase = "charging" then 2 else if phase = "discharging" then -(3/2) else 0
  let voltage := rawVoltage cell_type working_condition phase d.base
  let temp := temp0 + tempAdd working_condition
  let current := if working_condition = "Faulty" then 0 else current0
  let soc_change := soc_change0 * socFactor working_condition
  let soc := max 0 (min 100 (d.soc + soc_change))
  let alerts :=
    (if 45 < temp then ["Overheat"] else []) ++
    (if voltage < 5/2 then ["Undervoltage"] else []) ++
    (if ceilingOf cell_type < voltage then ["Overvoltage"] else []) ++
    (if working_condition = "Critical" ∨ working_condition = "Faulty" then
      ["Cell " ++ working_condition] else [])
  { voltage := round3 voltage
    current := current
    temperature := temp
    capacity := round2 (voltage * |current|)
    soc := round1 soc
    soh := round1 d.soh
    phase := phase
    workingCondition := working_condition
    alerts := alerts }

/-! ### Record store and phase log (session state lists) -/

/-- One entry of `st.session_state.workflow_logs` (a `PhaseLogEntry`):
`{"timestamp", "phase", "message"}` (lines 420-424). -/
structure WLogEntry where
  ts : Nat
  phase : String
  message : String
deriving DecidableEq

/-- One entry of `st.session_state.historical_records` (a `Record`):
`{"Timestamp", "Phase", flattened "Cell_i_<key>" scalar fields}`
(lines 427-432).  The flattened fields are modelled as an association
list from key to scalar value. -/
structure Record where
  ts : Nat
  phase : String
  vals : List (String × ℚ)
deriving DecidableEq

/-- Workflow duration configuration `st.session_state.workflow_config`
(lines 242-246). -/
structure WConfig where
  chargeDuration : Nat
  idleDuration : Nat
  dischargeDuration : Nat
deriving DecidableEq

/-- The session state fields the workflow/record core mutates
(initialized at lines 17-28). -/
structure SessionState where
  workflow_active : Bool
  current_phase : String
  phase_start_time : Option Nat
  workflow_logs : List WLogEntry
  workflow_config : Option WConfig
  historical_records : List Record
deriving DecidableEq

/-- Initial session state (lines 17-28): inactive, phase `"idle"`,
no start time, empty logs and records, no config. -/
def initState : SessionState :=
  { workflow_active := false
    current_phase := "idle"
    phase_start_time := none
    workflow_logs := []
    workflow_config := none
    historical_records := [] }

/-! ### Operator commands (Workflow Management / User Controls pages) -/

/-- Start Workflow button (lines 238-248).  The button is disabled while
the workflow is active, hence the guard. -/
def startWorkflow (now : Nat) (cfg : WConfig) (s : SessionState) : SessionState :=
  if s.workflow_active then s
  else
    { s with workflow_active := true
             current_phase := "charging"
             phase_start_time := some now
             workflow_config := some cfg }

/-- Pause Workflow button (lines 251-254): clears `workflow_active` only.
Disabled while the workflow is inactive. -/
def pauseWorkflow (s : SessionState) : SessionState :=
  if s.workflow_active then { s with workflow_active := false } else s

/-- Stop Workflow button (lines 257-262). -/
def stopWorkflow (s : SessionState) : SessionState :=
  { s with workflow_active := false
           current_phase := "idle"
           phase_start_time := none }

/-- Manual phase buttons on the User Controls page (lines 353-369): each
sets `current_phase` and resets `phase_start_time` to now, touching
nothing else (in particular not `workflow_active`). -/
def setPhaseManual (p : String) (now : Nat) (s : SessionState) : SessionState :=
  { s with current_phase := p, phase_start_time := some now }

/-- Emergency Stop button (lines 379-382): clears `workflow_active`,
forces phase `"idle"`, leaves `phase_start_time` untouched. -/
def emergencyStop (s : SessionState) : SessionState :=
  { s with workflow_active := false, current_phase := "idle" }

/-- Reset All button (lines 385-390): clears `workflow_active`, forces
phase `"idle"`, empties the workflow logs (the per-cell working
conditions it also resets are not part of this state model), and leaves
`phase_start_time` untouched. -/
def resetAll (s : SessionState) : SessionState :=
  { s with workflow_active := false
           current_phase := "idle"
           workflow_logs := [] }

/-- Clear All Records (lines 697-702): empties both the historical
records and the workflow logs in one update. -/
def clearAll (s : SessionState) : SessionState :=
  { s with historical_records := [], workflow_logs := [] }

/-! ### Timed phase transitions (lines 265-287) -/

/-- One evaluation of the timed transition block on the Workflow
Management page.  It runs only when `workflow_active` and
`phase_start_time` are set and a `workflow_config` exists; it reads
`current_phase` once, so at most one transition fires per evaluation. -/
def tick (now : Nat) (s : SessionState) : SessionState :=
  if s.workflow_active then
    match s.phase_start_time, s.workflow_config with
    | some t0, some cfg =>
      let elapsed := now - t0
      if s.current_phase = "charging" ∧ cfg.chargeDuration ≤ elapsed then
        { s with current_phase := "idle", phase_start_time := some now }
      else if s.current_phase = "idle" ∧ cfg.idleDuration ≤ elapsed then
        { s with current_phase := "discharging", phase_start_time := some now }
      else if s.current_phase = "discharging" ∧ cfg.dischargeDuration ≤ elapsed then
        { s with workflow_active := false
                 current_phase := "idle"
                 phase_start_time := none }
      else s
    | _, _ => s
  else s

/-! ### Auto-log debounce (Data Logging page, lines 417-432) -/

/-- Timestamp of the last workflow-log append, if any. -/
def lastLogTs (s : SessionState) : Option Nat :=
  (s.workflow_logs.getLast?).map (fun e => e.ts)

/-- The auto-log predicate at lines 418-419:
`len(workflow_logs) == 0 or (now - last).seconds > 5`.
`timedelta.seconds` is the day-wrapped seconds component, i.e.
`(now - last) % 86400` for second-granularity timestamps. -/
def shouldAutoLog (lastTs : Option Nat) (now : Nat) : Bool :=
  match lastTs with
  | none => true
  | some t => decide (5 < (now - t) % 86400)

/-- The auto-logging step of the Data Logging page (lines 399-432): when
the workflow is active and the debounce predicate fires, append one
workflow-log entry and one historical record (with the given flattened
cell values). -/
def autoLog (now : Nat) (vals : List (String × ℚ)) (s : SessionState) : SessionState :=
  if s.workflow_active then
    if shouldAutoLog (lastLogTs s) now then
      { s with
        workflow_logs := s.workflow_logs ++
          [{ ts := now, phase := s.current_phase
             message := "Auto-logged data during " ++ s.current_phase ++ " phase" }]
        historical_records := s.historical_records ++
          [{ ts := now, phase := s.current_phase, vals := vals }] }
    else s
  else s

/-! ### The operator-reachable state space -/

/-- The operations that mutate the workflow/record session state. -/
inductive Op where
  | start (now : Nat) (cfg : WConfig)
  | pause
  | stop
  | setPhase (p : String) (now : Nat)
  | estop
  | reset
  | tick (now : Nat)
  | autoLog (now : Nat) (vals : List (String × ℚ))
  | clear
deriving DecidableEq

/-- Apply one operation. -/
def step (s : SessionState) (o : Op) : SessionState :=
  match o with
  | .start now cfg => startWorkflow now cfg s
  | .pause => pauseWorkflow s
  | .stop => stopWorkflow s
  | .setPhase p now => setPhaseManual p now s
  | .estop => emergencyStop s
  | .reset => resetAll s
  | .tick now => tick now s
  | .autoLog now vals => autoLog now vals s
  | .clear => clearAll s

/-- Run a sequence of operations from the initial state. -/
def runOps (ops : List Op) : SessionState := ops.foldl step initState

/-! ### Record store query (Records & Comparison page, lines 529-541) -/

/-- Sort order selector (line 527). -/
inductive SortOrder where
  | newestFirst
  | oldestFirst
deriving DecidableEq

/-- Phase filter (lines 532-533): `None` models the `"All"` choice,
otherwise a case-insensitive exact match on the record's phase. -/
def matchesFilter (pf : Option String) (r : Record) : Bool :=
  match pf with
  | none => true
  | some p => r.phase.toLower == p.toLower

/-- Comparator denoting Python's stable `sorted(key=Timestamp)` /
`sorted(key=Timestamp, reverse=True)` on position-indexed records:
ascending (resp. descending) by timestamp, ties resolved by original
position.  Python's sort is stable, so this lexicographic comparison on
`(timestamp, position)` is its exact denotation. -/
def pyLe (ord : SortOrder) (a b : Nat × Record) : Bool :=
  match ord with
  | .newestFirst => decide (b.2.ts < a.2.ts ∨ (a.2.ts = b.2.ts ∧ a.1 ≤ b.1))
  | .oldestFirst => decide (a.2.ts < b.2.ts ∨ (a.2.ts = b.2.ts ∧ a.1 ≤ b.1))

/-- Model of Python's `sorted(records, key=lambda x: x["Timestamp"],
reverse=...)` (lines 535-538): a merge sort over position-indexed
records under `pyLe`. -/
def pySorted (ord : SortOrder) (l : List Record) : List Record :=
  ((l.enum).mergeSort (pyLe ord)).map Prod.snd

/-- The query pipeline of lines 529-541: filter by phase
(case-insensitive), sort by timestamp per the order, truncate to the
limit. -/
def query (rs : List Record) (pf : Option String) (lim : Nat) (ord : SortOrder) : List Record :=
  (pySorted ord (rs.filter (matchesFilter pf))).take lim

/-! ### Comparison engine (lines 604-673) -/

/-- The flattened key `f"{cell}_{param}"` (line 617/660). -/
def pairKey (cell param : String) : String := cell ++ "_" ++ param

/-- The ordered value sequence for one (cell, parameter) pair over a
window: `for record in window: if key in record: values.append(...)`
(lines 658-662). -/
def seriesValues (cell param : String) (window : List Record) : List ℚ :=
  window.filterMap (fun r => r.vals.lookup (pairKey cell param))

/-- Arithmetic mean (`np.mean`). -/
def qMean (l : List ℚ) : ℚ := l.sum / (l.length : ℚ)

/-- Population variance (the square of `np.std`). -/
def popVar (l : List ℚ) : ℚ :=
  (l.map (fun x => (x - qMean l) ^ 2)).sum / (l.length : ℚ)

/-- Bisection step for the integer square root: maintains
`lo² ≤ N < hi²` and narrows `[lo, hi)` until it has width one. -/
def isqrtGo (bigN : Nat) : Nat → Nat → Nat → Nat
  | 0, lo, _ => lo
  | f + 1, lo, hi =>
    let mid := (lo + hi) / 2
    if mid = lo then lo
    else if mid * mid ≤ bigN then isqrtGo bigN f mid hi
    else isqrtGo bigN f lo mid

/-- Integer square root `⌊√N⌋` by bisection (see `isqrt_spec`). -/
def isqrt (bigN : Nat) : Nat := isqrtGo bigN (bigN + 2) 0 (bigN + 1)

/-- Round-half-to-even of `1000 * √v` for a nonnegative rational `v`,
computed exactly by integer arithmetic: with `v = a/b`,
`1000·√v = √(10⁶·a·b) / b`, whose floor is `(isqrt (10⁶·a·b)) / b`,
and the half-point comparison `1000·√v ≷ k + 1/2` is
`4·10⁶·a·b ≷ (2·b·k + b)²`.  This is the exact value of
`round(np.std(values), 3)` on the real square root of the variance
(see `sqrtRound3_spec`). -/
def sqrtRound3 (v : ℚ) : ℚ :=
  let a := v.num.toNat
  let b := v.den
  let bigN := 1000000 * a * b
  let k := isqrt bigN / b
  let c := (2 * b * k + b) ^ 2
  let n := if c < 4 * bigN then k + 1 else if 4 * bigN < c then k
           else if k % 2 = 0 then k else k + 1
  (n : ℚ) / 1000

/-- One row of the comparison summary table (lines 665-673). -/
structure SummaryRow where
  cell : String
  param : String
  average : ℚ
  minv : ℚ
  maxv : ℚ
  latest : ℚ
  stdDev : ℚ
deriving DecidableEq

/-- The statistics computed for one nonempty value list (lines 665-673):
`round(np.mean,3), round(min,3), round(max,3), round(values[-1],3),
round(np.std,3)`. -/
def summaryRowFor (cell param : String) (v : ℚ) (vs : List ℚ) : SummaryRow :=
  let values := v :: vs
  { cell := cell
    param := param
    average := round3 (qMean values)
    minv := round3 (vs.foldl min v)
    maxv := round3 (vs.foldl max v)
    latest := round3 (values.getLast (List.cons_ne_nil v vs))
    stdDev := sqrtRound3 (popVar values) }

/-- The summary loop (lines 655-673): for each selected cell, for each
selected parameter, emit a row when the pair's value sequence over the
window is nonempty, and skip the pair otherwise. -/
def summarizeWindow (cells params : List String) (window : List Record) : List SummaryRow :=
  cells.flatMap (fun c =>
    params.filterMap (fun p =>
      match seriesValues c p window with
      | [] => none
      | v :: vs => some (summaryRowFor c p v vs)))

/-- The comparison window (lines 605-606):
`historical_records[-min(10, len(historical_records)):]`. -/
def latestRecords (rs : List Record) : List Record :=
  rs.drop (rs.length - min 10 rs.length)

/-- The full comparison computation: summary statistics over the last
`min(10, n)` records. -/
def summarize (cells params : List String) (rs : List Record) : List SummaryRow :=
  summarizeWindow cells params (latestRecords rs)

/-! ### Spec-side definitions

These follow the wording of the specification and are compared against
the source-derived definitions above. -/

/-- Insert into a sorted list, after any element it ties with. -/
def insertLe {α : Type} (le : α → α → Bool) (x : α) : List α → List α
  | [] => [x]
  | y :: ys => if le x y then x :: y :: ys else y :: insertLe le x ys

/-- Insertion sort: a second, independent sorting algorithm used to
state the spec's sort. -/
def isort {α : Type} (le : α → α → Bool) : List α → List α
  | [] => []
  | x :: xs => insertLe le x (isort le xs)

/-- The spec's sort: stable sort by timestamp per the requested order,
ties broken by original append position, realized by insertion sort over
position-indexed records. -/
def specSorted (ord : SortOrder) (l : List Record) : List Record :=
  (isort (pyLe ord) l.enum).map Prod.snd

/-- The spec's query: filter by phase (case-insensitive), stable-sort by
timestamp per the order, truncate to the limit. -/
def querySpec (rs : List Record) (pf : Option String) (lim : Nat) (ord : SortOrder) : List Record :=
  (specSorted ord (rs.filter (matchesFilter pf))).take lim

/-- Modelled from the spec: `shouldAutoLog(lastTimestamp, now,
debounceSeconds)` is true exactly when the store is empty or at least
`debounceSeconds` have elapsed since the last append. -/
def shouldAutoLogSpec (lastTs : Option Nat) (now d : Nat) : Prop :=
  match lastTs with
  | none => True
  | some t => d ≤ now - t

/-- The claim's definition of `latest` for a (cell, parameter) pair:
sort the window by timestamp ascending, then take the pair's last value
in that order (the value associated with the greatest timestamp). -/
def specLatest (cell param : String) (window : List Record) : Option ℚ :=
  (seriesValues cell param (specSorted .oldestFirst window)).getLast?

/-- Lower end of the chemistry's phase-adjusted voltage bounds
(the claim's "chemistry base range scaled by the phase's adjustment,
capped at the chemistry maximum when charging"). -/
def phaseAdjLo (ct phase : String) : ℚ := phaseVoltage ct phase (baseLo ct)

/-- Upper end of the chemistry's phase-adjusted voltage bounds. -/
def phaseAdjHi (ct phase : String) : ℚ := phaseVoltage ct phase (baseHi ct)

/-! ### Concrete sample data used by witnesses and counterexamples -/

/-- Five appended records, with a timestamp tie between positions 1 and 3. -/
def sampleRecs : List Record :=
  [⟨1, "charging", []⟩, ⟨3, "idle", []⟩, ⟨2, "charging", []⟩,
   ⟨3, "discharging", []⟩, ⟨5, "idle", []⟩]

/-- Ten records, the window size of the comparison engine. -/
def tenRecs : List Record :=
  [⟨11, "idle", []⟩, ⟨12, "idle", []⟩, ⟨13, "idle", []⟩, ⟨14, "idle", []⟩,
   ⟨15, "idle", []⟩, ⟨16, "idle", []⟩, ⟨17, "idle", []⟩, ⟨18, "idle", []⟩,
   ⟨19, "idle", []⟩, ⟨20, "idle", []⟩]

/-- One older record, dated before `tenRecs`. -/
def olderRecs : List Record := [⟨1, "charging", [("Cell_1_Voltage (V)", 99)]⟩]

/-- A valid draw for an idle LFP cell (base voltage 3.0 V). -/
def faultyDraw : Draws := ⟨3, 0, 25, 50, 85⟩

/-- A valid draw for an idle cell of unknown chemistry (base 4.0 V,
inside the `else`-branch range `[3.3, 4.2]`). -/
def sodiumDraw : Draws := ⟨4, 0, 25, 50, 85⟩

/-- A window that is NOT sorted by timestamp: the latest-by-timestamp
record (ts 2, value 5) comes first, an older record (ts 1, value 7)
last. -/
def unsortedWindow : List Record :=
  [⟨2, "idle", [("Cell_1_Voltage (V)", 5)]⟩,
   ⟨1, "idle", [("Cell_1_Voltage (V)", 7)]⟩]

/-- The spec's worked example: Cell_1 voltage values 3.30, 3.35, 3.40. -/
def exampleWindow : List Record :=
  [⟨1, "idle", [("Cell_1_Voltage (V)", 33/10)]⟩,
   ⟨2, "idle", [("Cell_1_Voltage (V)", 67/20)]⟩,
   ⟨3, "idle", [("Cell_1_Voltage (V)", 17/5)]⟩]

/-! ## Lemmas -/

/-! ### Rounding lemmas -/

theorem roundHalfEven_le {x : ℚ} {n : ℤ} (h : x ≤ (n : ℚ)) : roundHalfEven x ≤ n := by
  unfold roundHalfEven
  have hf : ⌊x⌋ ≤ n := by
    have h1 : ⌊x⌋ ≤ ⌊(n : ℚ)⌋ := Int.floor_le_floor h
    simpa using h1
  dsimp only
  split_ifs with h1 h2 h3
  · exact hf
  · -- x - ⌊x⌋ > 1/2, so ⌊x⌋ < x - 1/2 ≤ n - 1/2, hence ⌊x⌋ + 1 ≤ n
    have hlt : (⌊x⌋ : ℚ) < (n : ℚ) := by linarith
    exact Int.add_one_le_of_lt (by exact_mod_cast hlt)
  · exact hf
  · -- the tie case with odd floor: x - ⌊x⌋ = 1/2 exactly
    have heq : x - (⌊x⌋ : ℚ) = 1/2 := le_antisymm (not_lt.mp h2) (not_lt.mp h1)
    have hlt : (⌊x⌋ : ℚ) < (n : ℚ) := by linarith
    exact Int.add_one_le_of_lt (by exact_mod_cast hlt)

theorem le_roundHalfEven {x : ℚ} {n : ℤ} (h : (n : ℚ) ≤ x) : n ≤ roundHalfEven x := by
  unfold roundHalfEven
  dsimp only
  have hfl : x < (⌊x⌋ : ℚ) + 1 := Int.lt_floor_add_one x
  split_ifs with h1 h2 h3
  · -- x - ⌊x⌋ < 1/2 : n ≤ x < ⌊x⌋ + 1/2, so n ≤ ⌊x⌋
    have : (n : ℚ) < (⌊x⌋ : ℚ) + 1 := by linarith
    have : n < ⌊x⌋ + 1 := by exact_mod_cast this
    omega
  · have : (n : ℚ) < (⌊x⌋ : ℚ) + 1 := by linarith
    have : n < ⌊x⌋ + 1 := by exact_mod_cast this
    omega
  · -- tie with even floor: x = ⌊x⌋ + 1/2, n ≤ x < ⌊x⌋ + 1
    have : (n : ℚ) < (⌊x⌋ : ℚ) + 1 := by linarith
    have : n < ⌊x⌋ + 1 := by exact_mod_cast this
    omega
  · have : (n : ℚ) < (⌊x⌋ : ℚ) + 1 := by linarith
    have : n < ⌊x⌋ + 1 := by exact_mod_cast this
    omega

theorem abs_roundHalfEven_sub (x : ℚ) : |(roundHalfEven x : ℚ) - x| ≤ 1/2 := by
  unfold roundHalfEven
  dsimp only
  have h1 := Int.floor_le x
  have h2 := Int.lt_floor_add_one x
  split_ifs with ha hb hc <;> rw [abs_le] <;> constructor <;> push_cast <;> linarith

theorem round3_le {x : ℚ} {n : ℤ} (h : x ≤ (n : ℚ) / 1000) : round3 x ≤ (n : ℚ) / 1000 := by
  unfold round3
  have h1000 : (1000 : ℚ) * x ≤ (n : ℚ) := by linarith
  have := roundHalfEven_le h1000
  have : ((roundHalfEven (1000 * x) : ℤ) : ℚ) ≤ (n : ℚ) := by exact_mod_cast this
  linarith

theorem le_round3 {x : ℚ} {n : ℤ} (h : (n : ℚ) / 1000 ≤ x) : (n : ℚ) / 1000 ≤ round3 x := by
  unfold round3
  have h1000 : (n : ℚ) ≤ 1000 * x := by linarith
  have := le_roundHalfEven h1000
  have : (n : ℚ) ≤ ((roundHalfEven (1000 * x) : ℤ) : ℚ) := by exact_mod_cast this
  linarith

theorem abs_round3_sub (x : ℚ) : |round3 x - x| ≤ 1/2000 := by
  unfold round3
  have := abs_roundHalfEven_sub (1000 * x)
  rw [abs_le] at this ⊢
  obtain ⟨hl, hr⟩ := this
  constructor <;> [nlinarith; nlinarith]

theorem le_round1 {x : ℚ} {n : ℤ} (h : (n : ℚ) / 10 ≤ x) : (n : ℚ) / 10 ≤ round1 x := by
  unfold round1
  have h10 : (n : ℚ) ≤ 10 * x := by linarith
  have := le_roundHalfEven h10
  have : (n : ℚ) ≤ ((roundHalfEven (10 * x) : ℤ) : ℚ) := by exact_mod_cast this
  linarith

/-! ### Stable-sort lemmas -/

theorem mem_insertLe {α : Type} (le : α → α → Bool) (x a : α) :
    ∀ l : List α, a ∈ insertLe le x l ↔ a = x ∨ a ∈ l := by
  intro l
  induction l with
  | nil => simp [insertLe]
  | cons y ys ih =>
    by_cases h : le x y
    · simp [insertLe, h]
    · simp only [insertLe, h, Bool.false_eq_true, if_false, List.mem_cons, ih]
      tauto

theorem insertLe_perm {α : Type} (le : α → α → Bool) (x : α) :
    ∀ l : List α, (insertLe le x l).Perm (x :: l) := by
  intro l
  induction l with
  | nil => simp [insertLe]
  | cons y ys ih =>
    by_cases h : le x y
    · simp [insertLe, h]
    · simp only [insertLe, h, if_neg, Bool.false_eq_true, if_false]
      exact (ih.cons y).trans (List.Perm.swap x y ys)

theorem isort_perm {α : Type} (le : α → α → Bool) :
    ∀ l : List α, (isort le l).Perm l := by
  intro l
  induction l with
  | nil => simp [isort]
  | cons x xs ih => exact (insertLe_perm le x (isort le xs)).trans (ih.cons x)

theorem pairwise_insertLe {α : Type} (le : α → α → Bool)
    (trans : ∀ a b c, le a b → le b c → le a c)
    (total : ∀ a b, le a b || le b a) (x : α) :
    ∀ l : List α, l.Pairwise (fun a b => le a b = true) →
      (insertLe le x l).Pairwise (fun a b => le a b = true) := by
  intro l
  induction l with
  | nil => simp [insertLe]
  | cons y ys ih =>
    intro hp
    rw [List.pairwise_cons] at hp
    obtain ⟨hy, hys⟩ := hp
    by_cases h : le x y
    · simp only [insertLe, h, if_true]
      rw [List.pairwise_cons]
      refine ⟨?_, ?_⟩
      · intro b hb
        rcases List.mem_cons.mp hb with rfl | hb
        · exact h
        · exact trans x y b h (hy b hb)
      · rw [List.pairwise_cons]
        exact ⟨hy, hys⟩
    · simp only [insertLe, h, Bool.false_eq_true, if_false]
      rw [List.pairwise_cons]
      refine ⟨?_, ih hys⟩
      intro b hb
      rw [mem_insertLe] at hb
      rcases hb with hbx | hb
      · subst hbx
        have := total b y
        rcases Bool.or_eq_true_iff.mp this with h1 | h1
        · exact absurd h1 h
        · exact h1
      · exact hy b hb

theorem pairwise_isort {α : Type} (le : α → α → Bool)
    (trans : ∀ a b c, le a b → le b c → le a c)
    (total : ∀ a b, le a b || le b a) :
    ∀ l : List α, (isort le l).Pairwise (fun a b => le a b = true) := by
  intro l
  induction l with
  | nil => simp [isort]
  | cons x xs ih => exact pairwise_insertLe le trans total x (isort le xs) ih

/-- Two lists that are permutations of each other, both sorted under a
comparator that is antisymmetric up to a key, and whose keys are
pairwise distinct, are equal.  This pins down the output of any stable
sort uniquely. -/
theorem sorted_key_unique {α : Type} (le : α → α → Bool) (key : α → Nat)
    (anti : ∀ a b, le a b = true → le b a = true → key a = key b) :
    ∀ (l₁ l₂ : List α), l₁.Perm l₂ →
      l₁.Pairwise (fun a b => le a b = true) →
      l₂.Pairwise (fun a b => le a b = true) →
      (l₁.map key).Nodup → l₁ = l₂ := by
  intro l₁
  induction l₁ with
  | nil =>
    intro l₂ hp _ _ _
    exact (hp.symm.eq_nil).symm
  | cons a t₁ ih =>
    intro l₂ hp hs₁ hs₂ hnd
    cases l₂ with
    | nil => exact absurd hp.symm.nil_eq (by simp)
    | cons b t₂ =>
      rw [List.pairwise_cons] at hs₁ hs₂
      obtain ⟨ha₁, hs₁⟩ := hs₁
      obtain ⟨hb₂, hs₂⟩ := hs₂
      rw [List.map_cons, List.nodup_cons] at hnd
      obtain ⟨hka, hnd'⟩ := hnd
      have hab : a = b := by
        have ham : a ∈ b :: t₂ := hp.subset (List.mem_cons_self a t₁)
        rcases List.mem_cons.mp ham with h | h
        · exact h
        · -- a ∈ t₂, so le b a; and b ∈ a :: t₁
          have hba : le b a := hb₂ a h
          have hbm : b ∈ a :: t₁ := hp.symm.subset (List.mem_cons_self b t₂)
          rcases List.mem_cons.mp hbm with h2 | h2
          · exact h2.symm
          · have hab2 : le a b := ha₁ b h2
            have : key a = key b := anti a b hab2 hba
            exact absurd (this ▸ List.mem_map_of_mem key h2) hka
      subst hab
      have ht : t₁.Perm t₂ := hp.cons_inv
      rw [ih t₂ ht hs₁ hs₂ hnd']

theorem pyLe_total (ord : SortOrder) :
    ∀ a b : Nat × Record, pyLe ord a b || pyLe ord b a := by
  intro a b
  cases ord <;> simp [pyLe] <;> omega

theorem pyLe_trans (ord : SortOrder) :
    ∀ a b c : Nat × Record, pyLe ord a b = true → pyLe ord b c = true →
      pyLe ord a c = true := by
  intro a b c
  cases ord <;> simp [pyLe] <;> omega

theorem pyLe_anti (ord : SortOrder) :
    ∀ a b : Nat × Record, pyLe ord a b = true → pyLe ord b a = true → a.1 = b.1 := by
  intro a b
  cases ord <;> simp [pyLe] <;> omega

/-- Merge sort and insertion sort agree on position-indexed records:
both are permutations of the input sorted under the same total
comparator, and distinct positions make the sorted arrangement unique. -/
theorem mergeSort_eq_isort (ord : SortOrder) (l : List (Nat × Record))
    (hnd : (l.map Prod.fst).Nodup) :
    l.mergeSort (pyLe ord) = isort (pyLe ord) l := by
  apply sorted_key_unique (pyLe ord) Prod.fst (pyLe_anti ord)
  · exact (List.mergeSort_perm l (pyLe ord)).trans (isort_perm (pyLe ord) l).symm
  · exact List.sorted_mergeSort (pyLe_trans ord) (pyLe_total ord) l
  · exact pairwise_isort (pyLe ord) (pyLe_trans ord) (pyLe_total ord) l
  · have hperm : ((l.mergeSort (pyLe ord)).map Prod.fst).Perm (l.map Prod.fst) :=
      (List.mergeSort_perm l _).map _
    exact hperm.nodup_iff.mpr hnd

theorem pySorted_eq_specSorted (ord : SortOrder) (l : List Record) :
    pySorted ord l = specSorted ord l := by
  unfold pySorted specSorted
  rw [mergeSort_eq_isort]
  rw [List.enum_map_fst]
  exact List.nodup_range _

theorem query_eq_querySpec (rs : List Record) (pf : Option String) (lim : Nat)
    (ord : SortOrder) : query rs pf lim ord = querySpec rs pf lim ord := by
  unfold query querySpec
  rw [pySorted_eq_specSorted]

theorem specSorted_pairwise (ord : SortOrder) (l : List Record) :
    (specSorted ord l).Pairwise (fun a b =>
      match ord with
      | .newestFirst => b.ts ≤ a.ts
      | .oldestFirst => a.ts ≤ b.ts) := by
  unfold specSorted
  rw [List.pairwise_map]
  apply (pairwise_isort (pyLe ord) (pyLe_trans ord) (pyLe_total ord) l.enum).imp
  intro a b hab
  cases ord <;> simp [pyLe] at hab <;> omega

/-! ### Integer square root -/

theorem isqrtGo_spec (bigN : Nat) :
    ∀ (f lo hi : Nat), lo * lo ≤ bigN → bigN < hi * hi → lo < hi → hi - lo ≤ f →
      isqrtGo bigN f lo hi * isqrtGo bigN f lo hi ≤ bigN ∧
      bigN < (isqrtGo bigN f lo hi + 1) * (isqrtGo bigN f lo hi + 1) := by
  intro f
  induction f with
  | zero => intro lo hi _ _ h3 h4; omega
  | succ f ih =>
    intro lo hi h1 h2 h3 h4
    simp only [isqrtGo]
    split_ifs with hmid hsq
    · have hhi : hi = lo + 1 := by omega
      subst hhi
      exact ⟨h1, h2⟩
    · exact ih ((lo + hi) / 2) hi hsq h2 (by omega) (by omega)
    · exact ih lo ((lo + hi) / 2) h1 (by omega) (by omega) (by omega)

theorem isqrt_spec (bigN : Nat) :
    isqrt bigN * isqrt bigN ≤ bigN ∧ bigN < (isqrt bigN + 1) * (isqrt bigN + 1) := by
  unfold isqrt
  apply isqrtGo_spec
  · simp
  · nlinarith
  · omega
  · omega

set_option maxHeartbeats 2000000 in
/-- `sqrtRound3 v` is `n/1000` for a natural `n` within half a unit of
`1000·√v` (stated via squares to stay in `ℚ`): this certifies that the
integer computation in `sqrtRound3` indeed rounds the real square root
of the variance to three decimals. -/
theorem sqrtRound3_spec (v : ℚ) (hv : 0 ≤ v) :
    ∃ n : ℕ, sqrtRound3 v = (n : ℚ) / 1000 ∧
      1000000 * v ≤ ((n : ℚ) + 1/2) ^ 2 ∧
      (n = 0 ∨ ((n : ℚ) - 1/2) ^ 2 ≤ 1000000 * v) := by
  have hnum : 0 ≤ v.num := Rat.num_nonneg.mpr hv
  set A := v.num.toNat with hA
  set B := v.den with hB
  have hBpos : 0 < B := v.pos
  have hBQ : (0 : ℚ) < (B : ℚ) := by exact_mod_cast hBpos
  have hden : ((B : ℚ)) ≠ 0 := ne_of_gt hBQ
  have hAv : (A : ℚ) = (B : ℚ) * v := by
    have h1 : ((A : ℤ) : ℚ) = (v.num : ℚ) := by
      rw [hA, Int.toNat_of_nonneg hnum]
    push_cast at h1
    rw [h1, hB]
    exact (Rat.den_mul_eq_num v).symm
  set bigN := 1000000 * A * B with hN
  obtain ⟨hs1, hs2⟩ := isqrt_spec bigN
  set s := isqrt bigN with hs
  set k := s / B with hk
  have hbk : B * k ≤ s := by
    rw [hk, mul_comm]
    exact Nat.div_mul_le_self s B
  have hsk : s < B * (k + 1) := by
    have h3 : B * (s / B) + s % B = s := Nat.div_add_mod s B
    have h4 : s % B < B := Nat.mod_lt s hBpos
    calc s = B * (s / B) + s % B := h3.symm
      _ < B * (s / B) + B := by omega
      _ = B * (s / B + 1) := by ring
  have hNv : (bigN : ℚ) = 1000000 * v * (B : ℚ) ^ 2 := by
    have : (bigN : ℚ) = 1000000 * (A : ℚ) * (B : ℚ) := by
      rw [hN]; push_cast; ring
    rw [this, hAv]; ring
  have hval : sqrtRound3 v =
      ((if (2 * B * k + B) ^ 2 < 4 * bigN then k + 1
        else if 4 * bigN < (2 * B * k + B) ^ 2 then k
        else if k % 2 = 0 then k else k + 1 : ℕ) : ℚ) / 1000 := by
    rw [hk, hs, hN, hA, hB]
    rfl
  -- upper bound holds for both candidate values k and k+1 when justified
  have hupper_k1 : 1000000 * v ≤ (((k + 1 : ℕ) : ℚ) + 1/2) ^ 2 := by
    -- bigN < (s+1)² ≤ (B(k+1))², so 4·10⁶v·B² < (2k+2)²B² ≤ (2k+3)²B²
    have hnat : 4 * bigN ≤ B ^ 2 * (2 * k + 3) ^ 2 := by nlinarith
    have hcast : 4 * (bigN : ℚ) ≤ ((B : ℚ)) ^ 2 * ((2 * (k : ℚ) + 3)) ^ 2 := by
      exact_mod_cast hnat
    rw [← mul_le_mul_right (show (0 : ℚ) < 4 * (B : ℚ) ^ 2 by positivity)]
    push_cast
    nlinarith [hcast, hNv]
  have hlower_k : ∀ hk1 : 1 ≤ k, (((k : ℕ) : ℚ) - 1/2) ^ 2 ≤ 1000000 * v := by
    intro hk1
    -- (Bk)² ≤ s² ≤ bigN and (2k-1)² ≤ 4k², so (2k-1)²B² ≤ 4·10⁶v·B²
    have hnat : B ^ 2 * (2 * k - 1) ^ 2 ≤ 4 * bigN := by
      have h5 : B ^ 2 * (2 * k - 1) ^ 2 ≤ B ^ 2 * (4 * k ^ 2) := by
        have : (2 * k - 1) ^ 2 ≤ 4 * k ^ 2 := by
          have h6 : 2 * k - 1 ≤ 2 * k := by omega
          calc (2 * k - 1) ^ 2 ≤ (2 * k) ^ 2 := Nat.pow_le_pow_left h6 2
            _ = 4 * k ^ 2 := by ring
        exact Nat.mul_le_mul_left _ this
      have h7 : B ^ 2 * (4 * k ^ 2) ≤ 4 * bigN := by
        nlinarith [Nat.mul_le_mul hbk hbk, hs1]
      omega
    have hcast : ((B : ℚ)) ^ 2 * (2 * (k : ℚ) - 1) ^ 2 ≤ 4 * (bigN : ℚ) := by
      have h8 : ((2 * k - 1 : ℕ) : ℚ) = 2 * (k : ℚ) - 1 := by
        have : (1 : ℕ) ≤ 2 * k := by omega
        push_cast [Nat.cast_sub this]
        ring
      calc ((B : ℚ)) ^ 2 * (2 * (k : ℚ) - 1) ^ 2
          = ((B : ℚ)) ^ 2 * (((2 * k - 1 : ℕ) : ℚ)) ^ 2 := by rw [h8]
        _ = (((B ^ 2 * (2 * k - 1) ^ 2 : ℕ)) : ℚ) := by push_cast; ring
        _ ≤ (((4 * bigN : ℕ)) : ℚ) := by exact_mod_cast hnat
        _ = 4 * (bigN : ℚ) := by push_cast; ring
    rw [← mul_le_mul_right (show (0 : ℚ) < 4 * (B : ℚ) ^ 2 by positivity)]
    nlinarith [hcast, hNv]
  have hupper_k : 4 * bigN ≤ (2 * B * k + B) ^ 2 → 1000000 * v ≤ (((k : ℕ) : ℚ) + 1/2) ^ 2 := by
    intro hc
    have hcast : 4 * (bigN : ℚ) ≤ (2 * (B : ℚ) * (k : ℚ) + (B : ℚ)) ^ 2 := by
      exact_mod_cast hc
    rw [← mul_le_mul_right (show (0 : ℚ) < 4 * (B : ℚ) ^ 2 by positivity)]
    nlinarith [hcast, hNv]
  have hlower_k1 : (2 * B * k + B) ^ 2 ≤ 4 * bigN → (((k + 1 : ℕ) : ℚ) - 1/2) ^ 2 ≤ 1000000 * v := by
    intro hc
    have hcast : (2 * (B : ℚ) * (k : ℚ) + (B : ℚ)) ^ 2 ≤ 4 * (bigN : ℚ) := by
      exact_mod_cast hc
    rw [← mul_le_mul_right (show (0 : ℚ) < 4 * (B : ℚ) ^ 2 by positivity)]
    push_cast
    nlinarith [hcast, hNv]
  rcases Nat.lt_trichotomy ((2 * B * k + B) ^ 2) (4 * bigN) with hc | hc | hc
  · refine ⟨k + 1, ?_, ?_, Or.inr ?_⟩
    · rw [hval, if_pos hc]
    · exact hupper_k1
    · exact hlower_k1 (le_of_lt hc)
  · -- exact tie: pick per parity, both candidates satisfy the bounds
    by_cases hpar : k % 2 = 0
    · refine ⟨k, ?_, ?_, ?_⟩
      · rw [hval, if_neg (by rw [hc]; exact lt_irrefl _),
            if_neg (by rw [hc]; exact lt_irrefl _), if_pos hpar]
      · exact hupper_k (le_of_eq hc.symm)
      · rcases Nat.eq_zero_or_pos k with h0 | h0
        · exact Or.inl h0
        · exact Or.inr (hlower_k h0)
    · refine ⟨k + 1, ?_, ?_, Or.inr ?_⟩
      · rw [hval, if_neg (by rw [hc]; exact lt_irrefl _),
            if_neg (by rw [hc]; exact lt_irrefl _), if_neg hpar]
      · exact hupper_k1
      · exact hlower_k1 (le_of_eq hc)
  · refine ⟨k, ?_, ?_, ?_⟩
    · rw [hval, if_neg (Nat.lt_asymm hc), if_pos hc]
    · exact hupper_k (le_of_lt hc)
    · rcases Nat.eq_zero_or_pos k with h0 | h0
      · exact Or.inl h0
      · exact Or.inr (hlower_k h0)


/-! ### Workflow state-machine lemmas -/

/-- Step preservation of the invariant "active implies a start time is
set". -/
theorem step_preserves_active_pst (s : SessionState) (o : Op)
    (h : s.workflow_active = true → s.phase_start_time.isSome = true) :
    (step s o).workflow_active = true → ((step s o).phase_start_time).isSome = true := by
  obtain ⟨a, ph, pst, logs, cfg0, recs⟩ := s
  cases o with
  | start now cfg =>
    by_cases ha : a
    · subst ha
      simpa [step, startWorkflow] using h
    · simp at ha
      subst ha
      simp [step, startWorkflow]
  | pause =>
    by_cases ha : a
    · subst ha
      simp [step, pauseWorkflow]
    · simp at ha
      subst ha
      simpa [step, pauseWorkflow] using h
  | stop => simp [step, stopWorkflow]
  | setPhase p now => simp [step, setPhaseManual]
  | estop =>
    intro hact
    simp [step, emergencyStop] at hact
  | reset =>
    intro hact
    simp [step, resetAll] at hact
  | tick now =>
    by_cases ha : a
    · subst ha
      cases pst with
      | none => simpa [step, tick] using h
      | some t0 =>
        cases cfg0 with
        | none => simpa [step, tick] using h
        | some cfg =>
          simp only [step, tick]
          split_ifs <;> simp
    · simp at ha
      subst ha
      simpa [step, tick] using h
  | autoLog now vals =>
    by_cases ha : a
    · subst ha
      simp only [step, autoLog]
      split_ifs <;> simpa using h
    · simp at ha
      subst ha
      simpa [step, autoLog] using h
  | clear => simpa [step, clearAll] using h

theorem foldl_preserves_active_pst (ops : List Op) :
    ∀ s : SessionState, (s.workflow_active = true → s.phase_start_time.isSome = true) →
      ((ops.foldl step s).workflow_active = true →
        ((ops.foldl step s).phase_start_time).isSome = true) := by
  induction ops with
  | nil => intro s h; exact h
  | cons o rest ih =>
    intro s h
    exact ih (step s o) (step_preserves_active_pst s o h)

/-! ## Claim theorems -/

/-- C1 (counterexample): with durations 1/1/1, starting at time 0 and
ticking at times 2, 4, 6, the scheduler walks Charging → Idle →
Discharging → inactive Idle, but NO `PhaseLogEntry` is ever appended by
a transition (the log stays empty, not 1 after the first transition and
not 3 at the end), and the final transition clears `phaseStartedAt` to
null instead of resetting it to now. -/
theorem C1_cycle_counterexample :
    (tick 2 (startWorkflow 0 ⟨1, 1, 1⟩ initState)).current_phase = "idle" ∧
    (tick 2 (startWorkflow 0 ⟨1, 1, 1⟩ initState)).workflow_logs.length = 0 ∧
    ¬((tick 2 (startWorkflow 0 ⟨1, 1, 1⟩ initState)).workflow_logs.length = 1) ∧
    (tick 6 (tick 4 (tick 2 (startWorkflow 0 ⟨1, 1, 1⟩ initState)))).workflow_active = false ∧
    (tick 6 (tick 4 (tick 2 (startWorkflow 0 ⟨1, 1, 1⟩ initState)))).current_phase = "idle" ∧
    (tick 6 (tick 4 (tick 2 (startWorkflow 0 ⟨1, 1, 1⟩ initState)))).workflow_logs.length = 0 ∧
    ¬((tick 6 (tick 4 (tick 2 (startWorkflow 0 ⟨1, 1, 1⟩ initState)))).workflow_logs.length = 3) ∧
    (tick 6 (tick 4 (tick 2 (startWorkflow 0 ⟨1, 1, 1⟩ initState)))).phase_start_time = none ∧
    ¬((tick 6 (tick 4 (tick 2 (startWorkflow 0 ⟨1, 1, 1⟩ initState)))).phase_start_time = some 6) := by
  decide

/-- C1 (amended): starting inactive, `start()` enters Charging with the
timer set, and ticking past each configured duration drives the
scheduler Charging → Idle → Discharging and finally to inactive with
phase Idle; `phaseStartedAt` is reset to now on the two intermediate
transitions and cleared to null on the final one; no transition appends
a `PhaseLogEntry` (the log is written only by the auto-log path), so the
log is unchanged — zero new entries — over the whole cycle. -/
theorem C1_cycle_amended (cfg : WConfig) (t0 t1 t2 t3 : Nat)
    (h01 : cfg.chargeDuration ≤ t1 - t0) (h12 : cfg.idleDuration ≤ t2 - t1)
    (h23 : cfg.dischargeDuration ≤ t3 - t2) :
    (startWorkflow t0 cfg initState).workflow_active = true ∧
    (startWorkflow t0 cfg initState).current_phase = "charging" ∧
    (startWorkflow t0 cfg initState).phase_start_time = some t0 ∧
    tick t1 (startWorkflow t0 cfg initState) =
      ⟨true, "idle", some t1, [], some cfg, []⟩ ∧
    tick t2 (tick t1 (startWorkflow t0 cfg initState)) =
      ⟨true, "discharging", some t2, [], some cfg, []⟩ ∧
    tick t3 (tick t2 (tick t1 (startWorkflow t0 cfg initState))) =
      ⟨false, "idle", none, [], some cfg, []⟩ := by
  have hs0 : startWorkflow t0 cfg initState =
      ⟨true, "charging", some t0, [], some cfg, []⟩ := rfl
  have hs1 : tick t1 (⟨true, "charging", some t0, [], some cfg, []⟩ : SessionState) =
      ⟨true, "idle", some t1, [], some cfg, []⟩ := by
    simp [tick, h01]
  have hs2 : tick t2 (⟨true, "idle", some t1, [], some cfg, []⟩ : SessionState) =
      ⟨true, "discharging", some t2, [], some cfg, []⟩ := by
    simp [tick, h12]
  have hs3 : tick t3 (⟨true, "discharging", some t2, [], some cfg, []⟩ : SessionState) =
      ⟨false, "idle", none, [], some cfg, []⟩ := by
    simp [tick, h23]
  rw [hs0, hs1, hs2, hs3]
  exact ⟨rfl, rfl, rfl, rfl, rfl, rfl⟩

/-- C1 (witness): the amended cycle theorem applied at durations 2/3/4,
start time 10, tick times 12, 15, 19. -/
theorem C1_cycle_amended_witness :
    tick 12 (startWorkflow 10 ⟨2, 3, 4⟩ initState) =
      ⟨true, "idle", some 12, [], some ⟨2, 3, 4⟩, []⟩ ∧
    tick 19 (tick 15 (tick 12 (startWorkflow 10 ⟨2, 3, 4⟩ initState))) =
      ⟨false, "idle", none, [], some ⟨2, 3, 4⟩, []⟩ := by
  have h := C1_cycle_amended ⟨2, 3, 4⟩ 10 12 15 19 (by decide) (by decide) (by decide)
  exact ⟨h.2.2.2.1, h.2.2.2.2.2⟩

/-- C2 (counterexample): the reachable state start-then-pause has
`active = false` but `phaseStartedAt = some 0 ≠ null`, so the invariant
"`phaseStartedAt` is null iff `active` is false" fails after the pause
operation. -/
theorem C2_invariant_counterexample :
    (runOps [.start 0 ⟨1, 1, 1⟩, .pause]).workflow_active = false ∧
    (runOps [.start 0 ⟨1, 1, 1⟩, .pause]).phase_start_time = some 0 ∧
    ¬((runOps [.start 0 ⟨1, 1, 1⟩, .pause]).phase_start_time = none ↔
      (runOps [.start 0 ⟨1, 1, 1⟩, .pause]).workflow_active = false) := by
  refine ⟨rfl, rfl, ?_⟩
  intro h
  have h2 : (runOps [.start 0 ⟨1, 1, 1⟩, .pause]).phase_start_time = none := h.mpr rfl
  simp [runOps, step, startWorkflow, pauseWorkflow, initState] at h2

/-- C2 (amended): in every operator-reachable state, `active = true`
implies `phaseStartedAt ≠ null` (one direction of the claimed
invariant); the full biconditional does hold immediately after `stop()`
and immediately after a `start()` issued from an inactive state, but it
fails after `pause`, emergency stop, reset-all, and manual phase
commands issued while inactive. -/
theorem C2_invariant_amended :
    (∀ ops : List Op, (runOps ops).workflow_active = true →
      ((runOps ops).phase_start_time).isSome = true) ∧
    (∀ s : SessionState,
      ((stopWorkflow s).phase_start_time = none ↔ (stopWorkflow s).workflow_active = false)) ∧
    (∀ (s : SessionState) (now : Nat) (cfg : WConfig), s.workflow_active = false →
      ((startWorkflow now cfg s).phase_start_time = none ↔
        (startWorkflow now cfg s).workflow_active = false)) := by
  refine ⟨?_, ?_, ?_⟩
  · intro ops
    exact foldl_preserves_active_pst ops initState (by intro h; simp [initState] at h)
  · intro s
    simp [stopWorkflow]
  · intro s now cfg h
    simp [startWorkflow, h]

/-- C2 (witness): the amended invariant applied to the concrete
reachable state after `start(0)`, which is active and has a start
time. -/
theorem C2_invariant_amended_witness :
    ((runOps [.start 0 ⟨1, 1, 1⟩]).phase_start_time).isSome = true := by
  exact C2_invariant_amended.1 [.start 0 ⟨1, 1, 1⟩] (by decide)

theorem specSorted_length (ord : SortOrder) (l : List Record) :
    (specSorted ord l).length = l.length := by
  unfold specSorted
  rw [List.length_map, (isort_perm (pyLe ord) l.enum).length_eq, List.enum_length]

/-- C3: `query` filters by phase case-insensitively, stable-sorts by
timestamp per the requested order with ties broken by append position,
and truncates to the limit: it coincides with the spec-side
filter/stable-sort/truncate pipeline `querySpec` on all inputs; its
NewestFirst output is descending in timestamp, its OldestFirst output is
ascending, its length is `min limit (filtered length)`, and every
returned record is at least as recent as every matching record the
truncation dropped — so NewestFirst with limit 3 returns exactly the 3
most recent matching records. -/
theorem C3_query_filter_sort_limit :
    (∀ (rs : List Record) (pf : Option String) (lim : Nat) (ord : SortOrder),
      query rs pf lim ord = querySpec rs pf lim ord) ∧
    (∀ (rs : List Record) (pf : Option String) (lim : Nat),
      (query rs pf lim .newestFirst).Pairwise (fun a b => b.ts ≤ a.ts) ∧
      (query rs pf lim .oldestFirst).Pairwise (fun a b => a.ts ≤ b.ts) ∧
      (query rs pf lim .newestFirst).length =
        min lim (rs.filter (matchesFilter pf)).length ∧
      (∀ x ∈ query rs pf lim .newestFirst,
        ∀ y ∈ (specSorted .newestFirst (rs.filter (matchesFilter pf))).drop lim,
          y.ts ≤ x.ts)) := by
  refine ⟨query_eq_querySpec, ?_⟩
  intro rs pf lim
  refine ⟨?_, ?_, ?_, ?_⟩
  · rw [query_eq_querySpec]
    unfold querySpec
    exact List.Pairwise.sublist (List.take_sublist lim _)
      (specSorted_pairwise .newestFirst (rs.filter (matchesFilter pf)))
  · rw [query_eq_querySpec]
    unfold querySpec
    exact List.Pairwise.sublist (List.take_sublist lim _)
      (specSorted_pairwise .oldestFirst (rs.filter (matchesFilter pf)))
  · rw [query_eq_querySpec]
    unfold querySpec
    rw [List.length_take, specSorted_length]
  · intro x hx y hy
    rw [query_eq_querySpec] at hx
    unfold querySpec at hx
    have hPair := specSorted_pairwise .newestFirst (rs.filter (matchesFilter pf))
    have hsplit := List.take_append_drop lim (specSorted .newestFirst (rs.filter (matchesFilter pf)))
    rw [← hsplit] at hPair
    exact (List.pairwise_append.mp hPair).2.2 x hx y hy

/-- C3 (witness): on the five `sampleRecs`, the NewestFirst limit-3
query equals the spec pipeline, and a kept record (ts 5) is at least as
recent as a dropped one (ts 2). -/
theorem C3_query_witness :
    query sampleRecs none 3 .newestFirst = querySpec sampleRecs none 3 .newestFirst ∧
    (⟨2, "charging", []⟩ : Record).ts ≤ (⟨5, "idle", []⟩ : Record).ts := by
  constructor
  · exact C3_query_filter_sort_limit.1 sampleRecs none 3 .newestFirst
  · apply (C3_query_filter_sort_limit.2 sampleRecs none 3).2.2.2
    · rw [C3_query_filter_sort_limit.1 sampleRecs none 3 .newestFirst]
      decide
    · decide

/-- C7: clearing drops all historical records and all phase-log entries
in one state update; a query on the cleared store returns the empty
sequence for every filter, and a second `clear()` is a no-op. -/
theorem C7_clear_idempotent :
    ∀ (s : SessionState) (pf : Option String) (lim : Nat) (ord : SortOrder),
      query (clearAll s).historical_records pf lim ord = [] ∧
      clearAll (clearAll s) = clearAll s ∧
      (clearAll s).historical_records = [] ∧
      (clearAll s).workflow_logs = [] := by
  intro s pf lim ord
  refine ⟨?_, rfl, rfl, rfl⟩
  show query [] pf lim ord = []
  cases ord <;> simp [query, pySorted]

/-- C10: the comparison window is exactly the last `min(10, n)` records
in append order — its length is `min 10 n`, it is a suffix of the store,
`summarize` agrees with summarizing the whole store when at most 10
records exist, and any records older than the last 10 never influence
the summary. -/
theorem C10_summary_window :
    (∀ rs : List Record,
      (latestRecords rs).length = min 10 rs.length ∧
      rs.take (rs.length - min 10 rs.length) ++ latestRecords rs = rs) ∧
    (∀ (cells params : List String) (rs : List Record), rs.length ≤ 10 →
      summarize cells params rs = summarizeWindow cells params rs) ∧
    (∀ (cells params : List String) (old rs : List Record), rs.length = 10 →
      summarize cells params (old ++ rs) = summarize cells params rs) := by
  refine ⟨?_, ?_, ?_⟩
  · intro rs
    constructor
    · unfold latestRecords
      rw [List.length_drop]
      omega
    · exact List.take_append_drop _ rs
  · intro cells params rs h
    unfold summarize latestRecords
    rw [Nat.min_eq_right h]
    simp
  · intro cells params old rs h
    unfold summarize latestRecords
    congr 1
    rw [List.length_append, h]
    have e1 : old.length + 10 - min 10 (old.length + 10) = old.length := by omega
    have e2 : (10 : ℕ) - min 10 10 = 0 := by omega
    rw [e1, e2, List.drop_zero, List.drop_left]

/-- C10 (witness): the window theorem applied to one old record plus ten
recent ones, and to a store of fewer than ten records. -/
theorem C10_summary_witness :
    summarize [] [] (olderRecs ++ tenRecs) = summarize [] [] tenRecs ∧
    summarize [] [] olderRecs = summarizeWindow [] [] olderRecs :=
  ⟨C10_summary_window.2.2 [] [] olderRecs tenRecs (by decide),
   C10_summary_window.2.1 [] [] olderRecs (by decide)⟩

/-- C6 (counterexample): with the last append at time 0 and `now` one
day later (86400 s), far more than the configured 5 s debounce has
elapsed, yet the code's day-wrapped `timedelta.seconds` component is 0,
so `shouldAutoLog` returns false and the auto-log step appends
nothing. -/
theorem C6_debounce_counterexample :
    shouldAutoLog (some 0) 86400 = false ∧
    shouldAutoLogSpec (some 0) 86400 5 ∧
    autoLog 86400 [] ⟨true, "idle", some 0, [⟨0, "idle", "m"⟩], none, []⟩ =
      ⟨true, "idle", some 0, [⟨0, "idle", "m"⟩], none, []⟩ := by
  refine ⟨rfl, ?_, rfl⟩
  show (5 : Nat) ≤ 86400 - 0
  decide

/-- C6 (amended): the auto-log predicate returns true exactly when the
log store is empty or the day-wrapped seconds component of the elapsed
time strictly exceeds 5 s; for gaps under one day this means "at least
6 s elapsed" (an elapsed time of exactly 5 s does not trigger, and
elapsed times a whole day apart wrap around).  When the workflow is
active, the auto-log step appends exactly one log entry and one record
if the predicate holds, and leaves the state unchanged otherwise. -/
theorem C6_debounce_amended :
    (∀ now : Nat, shouldAutoLog none now = true) ∧
    (∀ t now : Nat, shouldAutoLog (some t) now = true ↔ 5 < (now - t) % 86400) ∧
    (∀ t now : Nat, now - t < 86400 → (shouldAutoLog (some t) now = true ↔ 6 ≤ now - t)) ∧
    (∀ (s : SessionState) (now : Nat) (vals : List (String × ℚ)),
      s.workflow_active = true →
      (shouldAutoLog (lastLogTs s) now = true →
        (autoLog now vals s).workflow_logs =
          s.workflow_logs ++ [⟨now, s.current_phase,
            "Auto-logged data during " ++ s.current_phase ++ " phase"⟩] ∧
        (autoLog now vals s).historical_records =
          s.historical_records ++ [⟨now, s.current_phase, vals⟩]) ∧
      (shouldAutoLog (lastLogTs s) now = false → autoLog now vals s = s)) := by
  refine ⟨fun now => rfl, ?_, ?_, ?_⟩
  · intro t now
    simp [shouldAutoLog]
  · intro t now h
    simp only [shouldAutoLog, decide_eq_true_eq]
    omega
  · intro s now vals ha
    constructor
    · intro hp
      constructor <;> simp [autoLog, ha, hp]
    · intro hp
      simp [autoLog, ha, hp]

/-- C6 (witness): for a gap under one day, an elapsed time of 7 s
(≥ 6 s) makes the predicate fire. -/
theorem C6_debounce_witness : shouldAutoLog (some 0) 7 = true :=
  (C6_debounce_amended.2.2.1 0 7 (by decide)).mpr (by decide)

/-! ### Telemetry lemmas -/

theorem mem_ite_sing {α : Type} (a b : α) (c : Prop) [Decidable c] :
    (a ∈ if c then [b] else []) ↔ (c ∧ a = b) := by
  split_ifs with h <;> simp [h]

/-- The alert list of a generated reading, with the raw (pre-rounding)
voltage and the adjusted temperature exposed. -/
theorem alerts_eq (ct cond phase : String) (d : Draws) :
    (simulate_cell_data ct cond phase d).alerts =
      (if 45 < round1 d.temp + tempAdd cond then ["Overheat"] else []) ++
      (if rawVoltage ct cond phase d.base < 5/2 then ["Undervoltage"] else []) ++
      (if ceilingOf ct < rawVoltage ct cond phase d.base then ["Overvoltage"] else []) ++
      (if cond = "Critical" ∨ cond = "Faulty" then ["Cell " ++ cond] else []) := rfl

theorem overvoltage_mem (ct cond : String) (v t : ℚ) :
    ("Overvoltage" ∈
      (if 45 < t then ["Overheat"] else []) ++
      (if v < 5/2 then ["Undervoltage"] else []) ++
      (if ceilingOf ct < v then ["Overvoltage"] else []) ++
      (if cond = "Critical" ∨ cond = "Faulty" then ["Cell " ++ cond] else [])) ↔
      ceilingOf ct < v := by
  simp only [List.mem_append, mem_ite_sing]
  constructor
  · rintro (((⟨_, h⟩ | ⟨_, h⟩) | ⟨h, _⟩) | ⟨hc, h⟩)
    · exact absurd h (by decide)
    · exact absurd h (by decide)
    · exact h
    · rcases hc with rfl | rfl <;> exact absurd h (by decide)
  · intro h
    exact Or.inl (Or.inr ⟨h, trivial⟩)

theorem derate_pos (c : String) : 0 < derate c := by
  unfold derate; split_ifs <;> norm_num

theorem derate_le_one (c : String) : derate c ≤ 1 := by
  unfold derate; split_ifs <;> norm_num

theorem tempAdd_nonneg (c : String) : 0 ≤ tempAdd c := by
  unfold tempAdd; split_ifs <;> norm_num

theorem baseLo_pos (ct : String) : 0 < baseLo ct := by
  unfold baseLo; split_ifs <;> norm_num

theorem ceilingOf_pos (ct : String) : 0 < ceilingOf ct := by
  unfold ceilingOf; split_ifs <;> norm_num

theorem phaseVoltage_nonneg (ct phase : String) {base : ℚ} (h : 0 ≤ base) :
    0 ≤ phaseVoltage ct phase base := by
  unfold phaseVoltage
  split_ifs
  · exact le_min (by nlinarith) (le_of_lt (ceilingOf_pos ct))
  · nlinarith
  · exact h

theorem phaseVoltage_mono (ct phase : String) {b1 b2 : ℚ} (h : b1 ≤ b2) :
    phaseVoltage ct phase b1 ≤ phaseVoltage ct phase b2 := by
  unfold phaseVoltage
  split_ifs
  · exact min_le_min (by nlinarith) le_rfl
  · nlinarith
  · exact h

theorem phaseVoltage_le_ceiling (ct phase : String) (base : ℚ)
    (hct : ct = "lfp" ∨ ct = "nmc") (hb : base ≤ baseHi ct) (h0 : 0 ≤ base) :
    phaseVoltage ct phase base ≤ ceilingOf ct := by
  rcases hct with rfl | rfl
  · have hb36 : base ≤ 36/10 := by simpa [baseHi] using hb
    have hceil : ceilingOf "lfp" = 36/10 := by simp [ceilingOf]
    by_cases h1 : phase = "charging"
    · have hpv : phaseVoltage "lfp" phase base =
          min (base * (11/10)) (ceilingOf "lfp") := by
        simp [phaseVoltage, h1]
      rw [hpv]
      exact min_le_right _ _
    · by_cases h2 : phase = "discharging"
      · have hpv : phaseVoltage "lfp" phase base = base * (9/10) := by
          simp [phaseVoltage, h1, h2]
        rw [hpv, hceil]
        nlinarith
      · have hpv : phaseVoltage "lfp" phase base = base := by
          simp [phaseVoltage, h1, h2]
        rw [hpv, hceil]
        linarith
  · have hb42 : base ≤ 42/10 := by simpa [baseHi] using hb
    have hceil : ceilingOf "nmc" = 42/10 := by simp [ceilingOf]
    by_cases h1 : phase = "charging"
    · have hpv : phaseVoltage "nmc" phase base =
          min (base * (11/10)) (ceilingOf "nmc") := by
        simp [phaseVoltage, h1]
      rw [hpv]
      exact min_le_right _ _
    · by_cases h2 : phase = "discharging"
      · have hpv : phaseVoltage "nmc" phase base = base * (9/10) := by
          simp [phaseVoltage, h1, h2]
        rw [hpv, hceil]
        nlinarith
      · have hpv : phaseVoltage "nmc" phase base = base := by
          simp [phaseVoltage, h1, h2]
        rw [hpv, hceil]
        linarith

theorem rawVoltage_le_ceiling (ct cond phase : String) (base : ℚ)
    (hct : ct = "lfp" ∨ ct = "nmc") (hb : base ≤ baseHi ct) (h0 : 0 ≤ base) :
    rawVoltage ct cond phase base ≤ ceilingOf ct := by
  unfold rawVoltage
  have h1 := phaseVoltage_le_ceiling ct phase base hct hb h0
  have h2 := phaseVoltage_nonneg ct phase h0
  have h3 := derate_pos cond
  have h4 := derate_le_one cond
  nlinarith

theorem validDraws_temp_lo (ct phase : String) (d : Draws)
    (hd : validDraws ct phase d) : 25 ≤ d.temp := by
  obtain ⟨_, _, h3, _⟩ := hd
  split_ifs at h3 <;> obtain ⟨_, _, ht, _⟩ := h3 <;> linarith

/-- The chemistry ceiling is an integer number of thousandths. -/
theorem ceilingOf_int (ct : String) (hct : ct = "lfp" ∨ ct = "nmc") :
    ∃ n : ℤ, ceilingOf ct = (n : ℚ) / 1000 := by
  rcases hct with rfl | rfl
  · refine ⟨3600, ?_⟩
    simp [ceilingOf]
    norm_num
  · refine ⟨4200, ?_⟩
    simp [ceilingOf]
    norm_num

/-- C5: for both known chemistries and every phase, working condition
and valid random draw, the Overvoltage alert is present in the generated
reading if and only if the returned (rounded) voltage exceeds the
chemistry ceiling.  Both sides are in fact always false on the reachable
domain: the generator caps and derates the voltage below the ceiling, so
a returned voltage of exactly the ceiling carries no alert and a voltage
strictly above it never occurs. -/
theorem C5_overvoltage_iff (ct cond phase : String) (d : Draws)
    (hct : ct = "lfp" ∨ ct = "nmc") (hd : validDraws ct phase d) :
    ("Overvoltage" ∈ (simulate_cell_data ct cond phase d).alerts ↔
      ceilingOf ct < (simulate_cell_data ct cond phase d).voltage) := by
  obtain ⟨hlo, hhi, _⟩ := hd
  have h0 : 0 ≤ d.base := le_trans (le_of_lt (baseLo_pos ct)) hlo
  have hraw : rawVoltage ct cond phase d.base ≤ ceilingOf ct :=
    rawVoltage_le_ceiling ct cond phase d.base hct hhi h0
  have hvolt : (simulate_cell_data ct cond phase d).voltage =
      round3 (rawVoltage ct cond phase d.base) := rfl
  apply iff_of_false
  · rw [alerts_eq, overvoltage_mem]
    exact not_lt.mpr hraw
  · rw [hvolt]
    apply not_lt.mpr
    obtain ⟨n, hn⟩ := ceilingOf_int ct hct
    rw [hn] at hraw ⊢
    exact round3_le hraw

/-- C5 (witness): the iff instantiated for an NMC cell at an idle
valid draw with base voltage 4.0 V. -/
theorem C5_overvoltage_witness :
    ("Overvoltage" ∈ (simulate_cell_data "nmc" "Normal" "idle" ⟨4, 0, 30, 60, 90⟩).alerts ↔
      ceilingOf "nmc" <
        (simulate_cell_data "nmc" "Normal" "idle" ⟨4, 0, 30, 60, 90⟩).voltage) := by
  apply C5_overvoltage_iff "nmc" "Normal" "idle" ⟨4, 0, 30, 60, 90⟩ (Or.inr rfl)
  refine ⟨?_, ?_, ?_, by norm_num, by norm_num, by norm_num, by norm_num⟩
  · simp [baseLo]
    norm_num
  · simp [baseHi]
    norm_num
  · rw [if_neg (by decide), if_neg (by decide)]
    norm_num

theorem baseHi_nonneg (ct : String) : 0 ≤ baseHi ct := by
  unfold baseHi; split_ifs <;> norm_num

/-- The phase-adjusted voltage bounds are integer numbers of
thousandths for the known chemistries. -/
theorem phaseAdj_int (ct phase : String) (hct : ct = "lfp" ∨ ct = "nmc") :
    ∃ nL nH : ℤ, phaseAdjLo ct phase = (nL : ℚ) / 1000 ∧
      phaseAdjHi ct phase = (nH : ℚ) / 1000 := by
  rcases hct with rfl | rfl
  · by_cases h1 : phase = "charging"
    · refine ⟨3300, 3600, ?_, ?_⟩
      · simp [phaseAdjLo, phaseVoltage, baseLo, ceilingOf, h1]
        rw [min_eq_left (by norm_num)]
        norm_num
      · simp [phaseAdjHi, phaseVoltage, baseHi, ceilingOf, h1]
        rw [min_eq_right (by norm_num)]
        norm_num
    · by_cases h2 : phase = "discharging"
      · refine ⟨2700, 3240, ?_, ?_⟩
        · simp [phaseAdjLo, phaseVoltage, baseLo, h1, h2]
          norm_num
        · simp [phaseAdjHi, phaseVoltage, baseHi, h1, h2]
          norm_num
      · refine ⟨3000, 3600, ?_, ?_⟩
        · simp [phaseAdjLo, phaseVoltage, baseLo, h1, h2]
          norm_num
        · simp [phaseAdjHi, phaseVoltage, baseHi, h1, h2]
          norm_num
  · by_cases h1 : phase = "charging"
    · refine ⟨3630, 4200, ?_, ?_⟩
      · simp [phaseAdjLo, phaseVoltage, baseLo, ceilingOf, h1]
        rw [min_eq_left (by norm_num)]
        norm_num
      · simp [phaseAdjHi, phaseVoltage, baseHi, ceilingOf, h1]
        rw [min_eq_right (by norm_num)]
        norm_num
    · by_cases h2 : phase = "discharging"
      · refine ⟨2970, 3780, ?_, ?_⟩
        · simp [phaseAdjLo, phaseVoltage, baseLo, h1, h2]
          norm_num
        · simp [phaseAdjHi, phaseVoltage, baseHi, h1, h2]
          norm_num
      · refine ⟨3300, 4200, ?_, ?_⟩
        · simp [phaseAdjLo, phaseVoltage, baseLo, h1, h2]
          norm_num
        · simp [phaseAdjHi, phaseVoltage, baseHi, h1, h2]
          norm_num

/-- C8 (counterexample): at the reachable draw base = 3.0 V for an idle
LFP cell in Faulty condition, the returned voltage is 2.1 V, strictly
below the phase-adjusted lower bound 3.0 V — the claim's two-sided
phase-adjusted bounds fail for derated working conditions. -/
theorem C8_bounds_counterexample :
    validDraws "lfp" "idle" faultyDraw ∧
    (simulate_cell_data "lfp" "Faulty" "idle" faultyDraw).voltage = 21/10 ∧
    phaseAdjLo "lfp" "idle" = 3 ∧
    ¬(phaseAdjLo "lfp" "idle" ≤
      (simulate_cell_data "lfp" "Faulty" "idle" faultyDraw).voltage) := by
  have hraw : rawVoltage "lfp" "Faulty" "idle" (3 : ℚ) = 21/10 := by
    simp [rawVoltage, phaseVoltage, derate]
    norm_num
  have hv : (simulate_cell_data "lfp" "Faulty" "idle" faultyDraw).voltage = 21/10 := by
    have : (simulate_cell_data "lfp" "Faulty" "idle" faultyDraw).voltage =
        round3 (rawVoltage "lfp" "Faulty" "idle" (3 : ℚ)) := rfl
    rw [this, hraw]
    norm_num [round3, roundHalfEven]
  have hlo : phaseAdjLo "lfp" "idle" = 3 := by
    simp [phaseAdjLo, phaseVoltage, baseLo]
  refine ⟨?_, hv, hlo, ?_⟩
  · refine ⟨?_, ?_, ?_, by norm_num [faultyDraw], by norm_num [faultyDraw],
      by norm_num [faultyDraw], by norm_num [faultyDraw]⟩
    · simp [baseLo, faultyDraw]
    · simp [baseHi, faultyDraw]
      norm_num
    · rw [if_neg (by decide), if_neg (by decide)]
      norm_num [faultyDraw]
  · rw [hv, hlo]
    norm_num

/-- C8 (amended): for the known chemistries, every phase, every working
condition and every valid draw: the temperature is nonnegative (in fact
at least 25 °C); the returned voltage is the 3-decimal rounding of the
raw voltage, which lies between the phase-adjusted bounds scaled by the
working-condition derating factor; the returned voltage never exceeds
the phase-adjusted upper bound; and for Normal condition the returned
voltage lies within the claim's two-sided phase-adjusted bounds. -/
theorem C8_bounds_amended (ct cond phase : String) (d : Draws)
    (hct : ct = "lfp" ∨ ct = "nmc") (hd : validDraws ct phase d) :
    (0 ≤ (simulate_cell_data ct cond phase d).temperature) ∧
    ((simulate_cell_data ct cond phase d).voltage =
      round3 (rawVoltage ct cond phase d.base)) ∧
    (derate cond * phaseAdjLo ct phase ≤ rawVoltage ct cond phase d.base) ∧
    (rawVoltage ct cond phase d.base ≤ derate cond * phaseAdjHi ct phase) ∧
    (|(simulate_cell_data ct cond phase d).voltage -
        rawVoltage ct cond phase d.base| ≤ 1/2000) ∧
    ((simulate_cell_data ct cond phase d).voltage ≤ phaseAdjHi ct phase) ∧
    (cond = "Normal" →
      phaseAdjLo ct phase ≤ (simulate_cell_data ct cond phase d).voltage ∧
      (simulate_cell_data ct cond phase d).voltage ≤ phaseAdjHi ct phase) := by
  have h25 := validDraws_temp_lo ct phase d hd
  obtain ⟨hlo, hhi, _⟩ := hd
  have h0 : 0 ≤ d.base := le_trans (le_of_lt (baseLo_pos ct)) hlo
  have hvolt : (simulate_cell_data ct cond phase d).voltage =
      round3 (rawVoltage ct cond phase d.base) := rfl
  have htemp : (simulate_cell_data ct cond phase d).temperature =
      round1 d.temp + tempAdd cond := rfl
  have hmonoLo : phaseAdjLo ct phase ≤ phaseVoltage ct phase d.base :=
    phaseVoltage_mono ct phase hlo
  have hmonoHi : phaseVoltage ct phase d.base ≤ phaseAdjHi ct phase :=
    phaseVoltage_mono ct phase hhi
  have hdp := derate_pos cond
  have hd1 := derate_le_one cond
  have hAdjHi0 : 0 ≤ phaseAdjHi ct phase :=
    phaseVoltage_nonneg ct phase (baseHi_nonneg ct)
  obtain ⟨nL, nH, hnL, hnH⟩ := phaseAdj_int ct phase hct
  have hrawLo : derate cond * phaseAdjLo ct phase ≤ rawVoltage ct cond phase d.base := by
    unfold rawVoltage
    rw [mul_comm]
    exact mul_le_mul_of_nonneg_right hmonoLo (le_of_lt hdp)
  have hrawHi : rawVoltage ct cond phase d.base ≤ derate cond * phaseAdjHi ct phase := by
    unfold rawVoltage
    rw [mul_comm (phaseVoltage ct phase d.base) (derate cond)]
    exact mul_le_mul_of_nonneg_left hmonoHi (le_of_lt hdp)
  have hrawHi' : rawVoltage ct cond phase d.base ≤ phaseAdjHi ct phase := by
    nlinarith
  refine ⟨?_, hvolt, hrawLo, hrawHi, ?_, ?_, ?_⟩
  · rw [htemp]
    have h250 : ((250 : ℤ) : ℚ) / 10 ≤ d.temp := by norm_num; linarith
    have := le_round1 h250
    have hta := tempAdd_nonneg cond
    have : (25 : ℚ) ≤ round1 d.temp := by
      calc (25 : ℚ) = ((250 : ℤ) : ℚ) / 10 := by norm_num
        _ ≤ round1 d.temp := le_round1 h250
    linarith
  · rw [hvolt]
    exact abs_round3_sub _
  · rw [hvolt]
    rw [hnH] at hrawHi' ⊢
    exact round3_le hrawHi'
  · intro hN
    have hder : derate cond = 1 := by
      subst hN
      simp [derate]
    rw [hder, one_mul] at hrawLo hrawHi
    constructor
    · rw [hvolt, hnL]
      rw [hnL] at hrawLo
      exact le_round3 hrawLo
    · rw [hvolt, hnH]
      rw [hnH] at hrawHi
      exact round3_le hrawHi

/-- C8 (witness): the amended bounds instantiated for a Normal idle LFP
cell at base voltage 3.0 V. -/
theorem C8_bounds_witness :
    0 ≤ (simulate_cell_data "lfp" "Normal" "idle" faultyDraw).temperature ∧
    (simulate_cell_data "lfp" "Normal" "idle" faultyDraw).voltage ≤
      phaseAdjHi "lfp" "idle" := by
  have h := C8_bounds_amended "lfp" "Normal" "idle" faultyDraw (Or.inl rfl) ?_
  · exact ⟨h.1, h.2.2.2.2.2.1⟩
  · refine ⟨?_, ?_, ?_, by norm_num [faultyDraw], by norm_num [faultyDraw],
      by norm_num [faultyDraw], by norm_num [faultyDraw]⟩
    · simp [baseLo, faultyDraw]
    · simp [baseHi, faultyDraw]
      norm_num
    · rw [if_neg (by decide), if_neg (by decide)]
      norm_num [faultyDraw]

/-- C9 (counterexample): an unknown chemistry ("sodium") falls into the
`else` branch of the voltage draw, so it uses the NMC bounds
`[3.3, 4.2]` — not the LFP bounds — while the Overvoltage check uses the
LFP ceiling 3.6 V; consequently a reachable idle reading at base 4.0 V
returns voltage 4.0 with an Overvoltage alert, behaviour impossible
under the claimed default-to-LFP semantics. -/
theorem C9_unknown_chemistry_counterexample :
    baseLo "sodium" = baseLo "nmc" ∧
    baseHi "sodium" = baseHi "nmc" ∧
    ¬(baseHi "sodium" = baseHi "lfp") ∧
    ceilingOf "sodium" = ceilingOf "lfp" ∧
    validDraws "sodium" "idle" sodiumDraw ∧
    (simulate_cell_data "sodium" "Normal" "idle" sodiumDraw).voltage = 4 ∧
    "Overvoltage" ∈ (simulate_cell_data "sodium" "Normal" "idle" sodiumDraw).alerts := by
  have hraw : rawVoltage "sodium" "Normal" "idle" (4 : ℚ) = 4 := by
    simp [rawVoltage, phaseVoltage, derate]
  refine ⟨by simp [baseLo], by simp [baseHi], ?_, by simp [ceilingOf], ?_, ?_, ?_⟩
  · simp [baseHi]
    norm_num
  · refine ⟨?_, ?_, ?_, by norm_num [sodiumDraw], by norm_num [sodiumDraw],
      by norm_num [sodiumDraw], by norm_num [sodiumDraw]⟩
    · simp [baseLo, sodiumDraw]
      norm_num
    · simp [baseHi, sodiumDraw]
      norm_num
    · rw [if_neg (by decide), if_neg (by decide)]
      norm_num [sodiumDraw]
  · have hv : (simulate_cell_data "sodium" "Normal" "idle" sodiumDraw).voltage =
        round3 (rawVoltage "sodium" "Normal" "idle" sodiumDraw.base) := rfl
    have hb : sodiumDraw.base = 4 := rfl
    rw [hv, hb, hraw]
    norm_num [round3, roundHalfEven]
  · rw [alerts_eq]
    have hb : sodiumDraw.base = 4 := rfl
    have ht : sodiumDraw.temp = 25 := rfl
    rw [hb, ht, hraw]
    have hr1 : round1 (25 : ℚ) = 25 := by norm_num [round1, roundHalfEven]
    have hta : tempAdd "Normal" = 0 := by simp [tempAdd]
    rw [hr1, hta]
    rw [if_neg (by norm_num), if_neg (by norm_num),
        if_pos (show ceilingOf "sodium" < 4 by simp [ceilingOf]; norm_num),
        if_neg (by decide)]
    simp

/-- C9 (amended): an unknown chemistry (neither "lfp" nor "nmc") does
not default to LFP behaviour: the generator stays total (no state
corruption is possible), but it draws the base voltage from the NMC
bounds while applying the LFP Overvoltage ceiling of 3.6 V. -/
theorem C9_unknown_chemistry_amended (ct : String)
    (h1 : ¬(ct = "lfp")) (h2 : ¬(ct = "nmc")) :
    baseLo ct = baseLo "nmc" ∧ baseHi ct = baseHi "nmc" ∧
    ceilingOf ct = ceilingOf "lfp" := by
  refine ⟨?_, ?_, ?_⟩ <;> simp [baseLo, baseHi, ceilingOf, h1, h2]

/-- C9 (witness): the amended statement applied to the unknown chemistry
string "sodium". -/
theorem C9_unknown_chemistry_witness :
    baseLo "sodium" = baseLo "nmc" ∧ baseHi "sodium" = baseHi "nmc" ∧
    ceilingOf "sodium" = ceilingOf "lfp" :=
  C9_unknown_chemistry_amended "sodium" (by decide) (by decide)

/-! ### Comparison-engine lemmas -/

/-- In a list sorted by nondecreasing timestamp, the last value
`filterMap` extracts comes from an element whose timestamp is maximal
among the elements on which `f` is defined. -/
theorem filterMap_getLast_sorted {α β : Type} (f : α → Option β) (ts : α → Nat) :
    ∀ l : List α, l.Pairwise (fun a b => ts a ≤ ts b) →
      ∀ q : β, (l.filterMap f).getLast? = some q →
        ∃ a, a ∈ l ∧ f a = some q ∧
          ∀ a2 ∈ l, (f a2).isSome = true → ts a2 ≤ ts a := by
  intro l
  induction l with
  | nil =>
    intro _ q hq
    simp at hq
  | cons x xs ih =>
    intro hp q hq
    rw [List.pairwise_cons] at hp
    obtain ⟨hx, hxs⟩ := hp
    cases hfx : f x with
    | none =>
      obtain ⟨a, ha, hfa, hmax⟩ :=
        ih hxs q (by rwa [List.filterMap_cons_none hfx] at hq)
      refine ⟨a, List.mem_cons_of_mem x ha, hfa, ?_⟩
      intro a2 ha2 hs
      rcases List.mem_cons.mp ha2 with rfl | ha2
      · rw [hfx] at hs
        simp at hs
      · exact hmax a2 ha2 hs
    | some b =>
      rw [List.filterMap_cons_some hfx] at hq
      cases hxs2 : xs.filterMap f with
      | nil =>
        rw [hxs2] at hq
        simp at hq
        refine ⟨x, List.mem_cons_self x xs, by rw [hfx, hq], ?_⟩
        intro a2 ha2 hs
        rcases List.mem_cons.mp ha2 with rfl | ha2
        · exact le_refl _
        · exfalso
          obtain ⟨y, hy⟩ := Option.isSome_iff_exists.mp hs
          have hmem : y ∈ xs.filterMap f := List.mem_filterMap.mpr ⟨a2, ha2, hy⟩
          rw [hxs2] at hmem
          simp at hmem
      | cons c cs =>
        rw [hxs2, List.getLast?_cons_cons] at hq
        obtain ⟨a, ha, hfa, hmax⟩ := ih hxs q (by rw [hxs2]; exact hq)
        refine ⟨a, List.mem_cons_of_mem x ha, hfa, ?_⟩
        intro a2 ha2 hs
        rcases List.mem_cons.mp ha2 with rfl | ha2
        · exact hx a ha
        · exact hmax a2 ha2 hs

theorem roundHalfEven_intCast (n : ℤ) : roundHalfEven ((n : ℚ)) = n := by
  unfold roundHalfEven
  rw [Int.floor_intCast]
  norm_num

/-- `round3` is the identity on rationals that are whole thousandths. -/
theorem round3_of_thousandths (x : ℚ) (n : ℤ) (h : 1000 * x = (n : ℚ)) :
    round3 x = x := by
  unfold round3
  rw [h, roundHalfEven_intCast]
  linarith

theorem sqrtRound3_one : sqrtRound3 1 = 1 := by
  have hi : isqrt 1000000 = 1000 := by decide
  have h1 : (1 : ℚ).num.toNat = 1 := rfl
  have h2 : (1 : ℚ).den = 1 := rfl
  unfold sqrtRound3
  rw [h1, h2]
  norm_num [hi]

/-- The rounded population standard deviation of the spec's worked
example: `round(√(1/600), 3) = 0.041`. -/
theorem sqrtRound3_example : sqrtRound3 (1/600) = 41/1000 := by
  have hi : isqrt 600000000 = 24494 := by decide
  have h1 : ((1 : ℚ)/600).num.toNat = 1 := by norm_num
  have h2 : ((1 : ℚ)/600).den = 600 := by norm_num
  unfold sqrtRound3
  rw [h1, h2]
  norm_num [hi]

/-- C4 (counterexample): on a window that is NOT sorted by timestamp
(the ts-2 record first with value 5, the ts-1 record last with value 7),
the engine reports `latest = 7` — the last value in window order — while
the record with the greatest timestamp holds value 5; the claim's
"latest = value of the record with the greatest timestamp (sorting
first)" is false of the code. -/
theorem C4_latest_counterexample :
    summarizeWindow ["Cell_1"] ["Voltage (V)"] unsortedWindow =
      [⟨"Cell_1", "Voltage (V)", 6, 5, 7, 7, 1⟩] ∧
    specLatest "Cell_1" "Voltage (V)" unsortedWindow = some 5 ∧
    (∀ r ∈ unsortedWindow, r.ts ≤ 2) ∧
    ((⟨2, "idle", [("Cell_1_Voltage (V)", 5)]⟩ : Record) ∈ unsortedWindow ∧
      (⟨2, "idle", [("Cell_1_Voltage (V)", 5)]⟩ : Record).vals.lookup
        (pairKey "Cell_1" "Voltage (V)") = some 5) ∧
    ¬((7 : ℚ) = 5) := by
  refine ⟨?_, by decide, by decide, ⟨by decide, by decide⟩, by norm_num⟩
  have hser : seriesValues "Cell_1" "Voltage (V)" unsortedWindow = [5, 7] := by decide
  simp only [summarizeWindow, List.flatMap_cons, List.flatMap_nil,
    List.filterMap_cons, List.filterMap_nil, hser, List.append_nil]
  simp [summaryRowFor]
  rw [show qMean [(5 : ℚ), 7] = 6 by norm_num [qMean],
      show popVar [(5 : ℚ), 7] = 1 by norm_num [popVar, qMean]]
  refine ⟨?_, ?_, ?_, ?_, ?_⟩
  · exact round3_of_thousandths 6 6000 (by norm_num)
  · rw [min_eq_left (by norm_num : (5 : ℚ) ≤ 7)]
    exact round3_of_thousandths 5 5000 (by norm_num)
  · rw [max_eq_right (by norm_num : (5 : ℚ) ≤ 7)]
    exact round3_of_thousandths 7 7000 (by norm_num)
  · exact round3_of_thousandths 7 7000 (by norm_num)
  · exact sqrtRound3_one

/-- C4 (amended): for every window and selected pair, the engine omits
pairs with no values; a pair with values `v :: vs` yields the row of
3-decimal-rounded statistics `summaryRowFor`, whose `latest` is the
rounding of the LAST value in window order (not the greatest-timestamp
value in general); when the window is sorted ascending by timestamp — as
the store's windows are under a monotone clock — that last value does
come from a record of maximal timestamp among the records containing the
pair's key; and the spec's worked example [3.30, 3.35, 3.40] yields
average 3.35, min 3.30, max 3.40, latest 3.40, and stdDev 0.041, the
3-decimal rounding of the population standard deviation 0.040825… . -/
theorem C4_summary_stats_amended :
    (∀ (cells params : List String) (w : List Record) (c p : String),
      seriesValues c p w = [] →
      ∀ row ∈ summarizeWindow cells params w, ¬(row.cell = c ∧ row.param = p)) ∧
    (∀ (cells params : List String) (w : List Record) (c p : String)
        (v : ℚ) (vs : List ℚ),
      c ∈ cells → p ∈ params → seriesValues c p w = v :: vs →
      summaryRowFor c p v vs ∈ summarizeWindow cells params w) ∧
    (∀ (c p : String) (v : ℚ) (vs : List ℚ),
      (summaryRowFor c p v vs).latest =
        round3 ((v :: vs).getLast (List.cons_ne_nil v vs)) ∧
      (summaryRowFor c p v vs).average = round3 (qMean (v :: vs)) ∧
      (summaryRowFor c p v vs).stdDev = sqrtRound3 (popVar (v :: vs))) ∧
    (∀ w : List Record, w.Pairwise (fun a b => a.ts ≤ b.ts) →
      ∀ (c p : String) (q : ℚ), (seriesValues c p w).getLast? = some q →
        ∃ r, r ∈ w ∧ r.vals.lookup (pairKey c p) = some q ∧
          ∀ r2 ∈ w, (r2.vals.lookup (pairKey c p)).isSome = true → r2.ts ≤ r.ts) ∧
    (summarizeWindow ["Cell_1"] ["Voltage (V)"] exampleWindow =
      [⟨"Cell_1", "Voltage (V)", 67/20, 33/10, 17/5, 17/5, 41/1000⟩]) := by
  refine ⟨?_, ?_, ?_, ?_, ?_⟩
  · intro cells params w c p hser row hrow hcp
    obtain ⟨hcell, hparam⟩ := hcp
    rcases List.mem_flatMap.mp hrow with ⟨c', hc', hrow2⟩
    rcases List.mem_filterMap.mp hrow2 with ⟨p', hp', heq⟩
    cases hser2 : seriesValues c' p' w with
    | nil =>
      rw [hser2] at heq
      simp at heq
    | cons v vs =>
      rw [hser2] at heq
      simp only [Option.some.injEq] at heq
      have hc2 : row.cell = c' := by rw [← heq]; rfl
      have hp2 : row.param = p' := by rw [← heq]; rfl
      rw [hcell] at hc2
      rw [hparam] at hp2
      rw [← hc2, ← hp2] at hser2
      rw [hser] at hser2
      exact List.noConfusion hser2
  · intro cells params w c p v vs hc hp hser
    refine List.mem_flatMap.mpr ⟨c, hc, List.mem_filterMap.mpr ⟨p, hp, ?_⟩⟩
    rw [hser]
  · intro c p v vs
    exact ⟨rfl, rfl, rfl⟩
  · intro w hsort c p q hlast
    have hlast2 : (w.filterMap (fun r => r.vals.lookup (pairKey c p))).getLast? =
        some q := hlast
    exact filterMap_getLast_sorted (fun r : Record => r.vals.lookup (pairKey c p))
      Record.ts w hsort q hlast2
  · have hser : seriesValues "Cell_1" "Voltage (V)" exampleWindow =
        [33/10, 67/20, 17/5] := by
      simp [seriesValues, exampleWindow, pairKey, List.lookup]
    simp only [summarizeWindow, List.flatMap_cons, List.flatMap_nil,
      List.filterMap_cons, List.filterMap_nil, hser, List.append_nil]
    simp [summaryRowFor]
    rw [show qMean [(33 : ℚ)/10, 67/20, 17/5] = 67/20 by norm_num [qMean],
        show popVar [(33 : ℚ)/10, 67/20, 17/5] = 1/600 by norm_num [popVar, qMean]]
    refine ⟨?_, ?_, ?_, ?_, ?_⟩
    · exact round3_of_thousandths (67/20) 3350 (by norm_num)
    · rw [min_eq_left (by norm_num : (33 : ℚ)/10 ≤ 67/20),
          min_eq_left (by norm_num : (33 : ℚ)/10 ≤ 17/5)]
      exact round3_of_thousandths (33/10) 3300 (by norm_num)
    · rw [max_eq_right (by norm_num : (33 : ℚ)/10 ≤ 67/20),
          max_eq_right (by norm_num : (67 : ℚ)/20 ≤ 17/5)]
      exact round3_of_thousandths (17/5) 3400 (by norm_num)
    · exact round3_of_thousandths (17/5) 3400 (by norm_num)
    · exact sqrtRound3_example

/-- C4 (witness): the amended row-production rule applied to the spec's
worked example window. -/
theorem C4_summary_witness :
    summaryRowFor "Cell_1" "Voltage (V)" (33/10) [67/20, 17/5] ∈
      summarizeWindow ["Cell_1"] ["Voltage (V)"] exampleWindow := by
  apply C4_summary_stats_amended.2.1 ["Cell_1"] ["Voltage (V)"] exampleWindow
    "Cell_1" "Voltage (V)" (33/10) [67/20, 17/5] (by simp) (by simp)
  simp [seriesValues, exampleWindow, pairKey, List.lookup]

end EduNet
